import Mathlib

/-!
Formal model of the BusyBee status-display firmware core (shallow embedding
of the C++ source).  Machine integers are modelled as `Nat` with an explicit
`% 2^w` wherever the C code can wrap (the `uint8_t` alpha buffer); text
buffers (`char[32]`) are modelled as `List Char`; the two FreeRTOS tasks are
modelled by making every individually-atomic write (a bare store, or one
critical-section block) a separate observable step.
-/

namespace BusyTag

/-- RGB565 packed value of TFT_RED. -/
def TFT_RED : Nat := 0xF800

/-- RGB565 packed value of TFT_GREEN. -/
def TFT_GREEN : Nat := 0x07E0

/-- Screen width in pixels (`const int screenWidth = 320`). -/
def screenWidth : Nat := 320

/-- Screen height in pixels (`const int screenHeight = 170`). -/
def screenHeight : Nat := 170

/-- Game-of-Life cell size (`const int golCellSize = 6`). -/
def golCellSize : Nat := 6

/-- Implicit bool-to-integer conversion of a `uint8_t` 0/1 cell value. -/
def b2n (b : Bool) : Nat := if b then 1 else 0

/-- Toroidal 8-neighbour live count of cell `(y, x)` on an `R × C` grid,
from `stepGameOfLife`: the C code sums
`golGrid[(y+dy+golRows)%golRows][(x+dx+golCols)%golCols]` over the eight
offsets `dy, dx ∈ {-1,0,1}, (dy,dx) ≠ (0,0)`; here `y + dy + R` is written
`y + R - 1`, `y + R`, `y + R + 1`. -/
def liveNeighbors (g : Nat → Nat → Bool) (R C y x : Nat) : Nat :=
  b2n (g ((y + R - 1) % R) ((x + C - 1) % C)) +
  b2n (g ((y + R - 1) % R) ((x + C) % C)) +
  b2n (g ((y + R - 1) % R) ((x + C + 1) % C)) +
  b2n (g ((y + R) % R) ((x + C - 1) % C)) +
  b2n (g ((y + R) % R) ((x + C + 1) % C)) +
  b2n (g ((y + R + 1) % R) ((x + C - 1) % C)) +
  b2n (g ((y + R + 1) % R) ((x + C) % C)) +
  b2n (g ((y + R + 1) % R) ((x + C + 1) % C))

/-- One cell of the next generation, from `stepGameOfLife`:
`if (golGrid[y][x]) golNext[y][x] = (live == 2 || live == 3);
 else golNext[y][x] = (live == 3);`. -/
def golNextCell (g : Nat → Nat → Bool) (R C y x : Nat) : Bool :=
  if g y x then (liveNeighbors g R C y x == 2 || liveNeighbors g R C y x == 3)
  else (liveNeighbors g R C y x == 3)

/-- Grid used by the witness of C1: the top row of a 3 × 3 torus is live, so
the dead centre cell `(1,1)` sees exactly 3 live neighbours. -/
def gw : Nat → Nat → Bool := fun y x => y == 0 && x ≤ 2

/-- Alpha fade step of one cell per simulation tick, from `stepGameOfLife`.
`alphaGrid` is a `uint8_t` buffer, so the C `alphaGrid[y][x] += 32` wraps
modulo 256 and the subsequent `if (alphaGrid[y][x] > 255)` clamp can never
fire; both are kept verbatim.  The dead branch steps down by 32 and stops
at 0. -/
def alphaStep (alive : Bool) (a : Nat) : Nat :=
  if alive then
    let a1 := if a < 255 then (a + 32) % 256 else a
    if 255 < a1 then 255 else a1
  else
    if 0 < a then (if 32 < a then a - 32 else 0) else a

/-- Outcome of releasing the primary button in `handleButtonPress`. -/
inductive PressOutcome where
  | sleep
  | cycle
  | stopAnim
  | ignored
deriving DecidableEq

/-- Classification of a primary-button release after a press of `d` ms, from
`handleButtonPress`: `if (pressDuration >= 3000) esp_deep_sleep_start(); else
if (pressDuration > 30) { if (now - lastPress > 300) { if (gameOfLifeRunning)
stop-animation else cycle-status } }`.  `debounceOk` stands for
`now - lastPress > 300`, `gol` for `gameOfLifeRunning`. -/
def classifyPress (gol : Bool) (d : Nat) (debounceOk : Bool) : PressOutcome :=
  if 3000 ≤ d then .sleep
  else if 30 < d then
    if debounceOk then (if gol then .stopAnim else .cycle) else .ignored
  else .ignored

/-- Effect of `strncpy(dst, src, sizeof(dst) - 1)` followed by the forced
terminator `dst[sizeof(dst)-1] = 0` on a 32-byte buffer: the stored text is
the first 31 characters of the input. -/
def truncStore (input : List Char) : List Char := input.take 31

/-- Text stored into custom slot `i` by the `/setCustomStatusN` handler:
`if (text.length() <= 20) { strncpy(customStatuses[i].text, text.c_str(), 31);
... }` — over-length input leaves the previous text untouched. -/
def setCustomSlotText (cur input : List Char) : List Char :=
  if input.length ≤ 20 then truncStore input else cur

/-- Text stored into `customText` by `serverSetCustom`:
`if (newText.length() > 0 && newText.length() <= 20) { strncpy(customText,
newText.c_str(), 31); ... }`. -/
def serverSetCustomText (cur input : List Char) : List Char :=
  if 0 < input.length ∧ input.length ≤ 20 then truncStore input else cur

/-- C1: one Game-of-Life transition step computes the toroidal 8-neighbour
live count of each cell and makes the cell live next generation iff it is
live with count 2 or 3, or dead with count exactly 3; in particular a cell
with exactly 3 live neighbours is live next generation regardless of its
current state, and a live cell with 0, 1 or at least 4 live neighbours is
dead next generation. -/
theorem claim1_transition_rule (g : Nat → Nat → Bool) (R C y x : Nat) :
    (golNextCell g R C y x = true ↔
      ((g y x = true ∧ (liveNeighbors g R C y x = 2 ∨ liveNeighbors g R C y x = 3)) ∨
       (g y x = false ∧ liveNeighbors g R C y x = 3))) ∧
    (liveNeighbors g R C y x = 3 → golNextCell g R C y x = true) ∧
    ((g y x = true ∧ (liveNeighbors g R C y x ≤ 1 ∨ 4 ≤ liveNeighbors g R C y x)) →
      golNextCell g R C y x = false) := by
  unfold golNextCell
  cases hg : g y x <;> (simp; try omega)

/-- Witness for C1: on the 3 × 3 torus whose top row is live, the dead centre
cell has exactly 3 live neighbours and is live next generation. -/
theorem claim1_transition_rule_w :
    liveNeighbors gw 3 3 1 1 = 3 ∧ golNextCell gw 3 3 1 1 = true :=
  ⟨by decide, (claim1_transition_rule gw 3 3 1 1).2.1 (by decide)⟩

/-- C6 (code bug): the alpha buffer is `uint8_t`, so for a live cell the
update `alphaGrid[y][x] += 32` wraps `224 + 32` around to `0` and the
`> 255` clamp never fires.  A permanently-live cell starting from alpha 0
cycles through `32 * (n % 8)` forever: the sequence is not non-decreasing
(it falls from 224 back to 0) and never reaches 255, contradicting the
claimed fade-to-255-and-hold behaviour. -/
theorem claim6_alpha_wraps :
    alphaStep true 224 = 0 ∧
    (∀ n : Nat, (alphaStep true)^[n] 0 = 32 * (n % 8)) ∧
    (∀ n : Nat, (alphaStep true)^[n] 0 ≠ 255) := by
  have hiter : ∀ n : Nat, (alphaStep true)^[n] 0 = 32 * (n % 8) := by
    intro n
    induction n with
    | zero => simp
    | succ n ih =>
      rw [Function.iterate_succ_apply', ih]
      have h8 : n % 8 < 8 := Nat.mod_lt _ (by norm_num)
      have key : ∀ k, k < 8 → alphaStep true (32 * k) = 32 * ((k + 1) % 8) := by decide
      rw [key _ h8]
      omega
  refine ⟨by decide, hiter, fun n => ?_⟩
  rw [hiter n]
  omega

/-- Counterexample for C4: a release after exactly 30 ms.  The claim states
that `30 ms ≤ d < 3000 ms` is a short press and cycles the mode, but the code
tests `pressDuration > 30` strictly, so a 30 ms press is ignored. -/
theorem claim4_cx :
    classifyPress false 30 true = PressOutcome.ignored ∧
    classifyPress false 30 true ≠ PressOutcome.cycle := by decide

/-- C4 (amended): on release after a press of `d` ms, `d ≥ 3000` enters deep
sleep (2999 ms cycles, not sleeps); `30 < d < 3000` is a short press and
cycles the mode when the 300 ms inter-press debounce has elapsed (and is
ignored when it has not); `d ≤ 30` is ignored. -/
theorem claim4_press_classification (d : Nat) (ok gol : Bool) :
    (3000 ≤ d → classifyPress gol d ok = PressOutcome.sleep) ∧
    (30 < d → d < 3000 → classifyPress false d true = PressOutcome.cycle) ∧
    (d ≤ 30 → classifyPress gol d ok = PressOutcome.ignored) ∧
    (30 < d → d < 3000 → classifyPress gol d false = PressOutcome.ignored) ∧
    classifyPress false 2999 true = PressOutcome.cycle := by
  refine ⟨fun h => ?_, fun h1 h2 => ?_, fun h => ?_, fun h1 h2 => ?_, by decide⟩ <;>
    simp only [classifyPress] <;> split_ifs <;>
      first | rfl | contradiction | omega

/-- Witness for C4: concrete durations on each side of both thresholds. -/
theorem claim4_press_classification_w :
    classifyPress false 3000 true = PressOutcome.sleep ∧
    classifyPress false 31 true = PressOutcome.cycle ∧
    classifyPress false 29 true = PressOutcome.ignored ∧
    classifyPress false 500 false = PressOutcome.ignored :=
  ⟨(claim4_press_classification 3000 true false).1 (by decide),
   (claim4_press_classification 31 true false).2.1 (by decide) (by decide),
   (claim4_press_classification 29 true false).2.2.1 (by decide),
   (claim4_press_classification 500 true false).2.2.2.1 (by decide) (by decide)⟩

/-- Counterexample for C7: a 25-character input to a custom-slot update.  The
claim states over-length input is truncated to the buffer bound and stored,
but the code tests `text.length() <= 20` and silently keeps the previous
text for longer input. -/
theorem claim7_cx :
    setCustomSlotText "OLD".toList "ABCDEFGHIJKLMNOPQRSTUVWXY".toList = "OLD".toList ∧
    "OLD".toList ≠ truncStore "ABCDEFGHIJKLMNOPQRSTUVWXY".toList := by decide

/-- C7 (amended): a set-custom-text input of at most 20 characters is stored
unchanged (the 31-character `strncpy` bound never truncates it); an input
longer than 20 characters is silently ignored, leaving the previous text; an
empty text is accepted for a custom slot and stored, marking the slot unset
(the free-text `serverSetCustom` path additionally ignores empty input,
keeping the current status text). -/
theorem claim7_truncation (cur input : List Char) :
    (input.length ≤ 20 → setCustomSlotText cur input = input) ∧
    (20 < input.length → setCustomSlotText cur input = cur) ∧
    setCustomSlotText cur [] = [] ∧
    (20 < input.length → serverSetCustomText cur input = cur) ∧
    serverSetCustomText cur [] = cur := by
  refine ⟨fun h => ?_, fun h => ?_, ?_, fun h => ?_, ?_⟩
  · simp only [setCustomSlotText, truncStore, if_pos h]
    exact List.take_of_length_le (by omega)
  · simp only [setCustomSlotText]
    rw [if_neg (by omega)]
  · rfl
  · simp only [serverSetCustomText]
    rw [if_neg (by omega)]
  · rfl

/-- Witness for C7: a 5-character input is stored verbatim and a 21-character
input is ignored. -/
theorem claim7_truncation_w :
    setCustomSlotText "OLD".toList "LUNCH".toList = "LUNCH".toList ∧
    setCustomSlotText "OLD".toList "ABCDEFGHIJKLMNOPQRSTU".toList = "OLD".toList :=
  ⟨(claim7_truncation "OLD".toList "LUNCH".toList).1 (by decide),
   (claim7_truncation "OLD".toList "ABCDEFGHIJKLMNOPQRSTU".toList).2.1 (by decide)⟩

/-- Predicate tested by the status-cycling do-while loop in
`handleButtonPress`: index `i` names a custom slot (`2 ≤ i ≤ 4`) whose
stored text is empty (`strlen(customStatuses[i - 2].text) == 0`). -/
def slotEmptyIdx (slots : List (List Char)) (i : Nat) : Bool :=
  decide (2 ≤ i) && decide (i ≤ 4) && (slots.getD (i - 2) []).isEmpty

/-- Status-cycling do-while loop of `handleButtonPress`:
`do { statusIndex = (statusIndex + 1) % 5; tryCount++; } while (statusIndex
>= 2 && statusIndex <= 4 && strlen(...) == 0 && tryCount < 5)`.  The first
argument of the recursion is `tryCount` so far, the last is `5 - tryCount`,
the number of probes the `tryCount < 5` guard still allows; the guard keeps
the fuel-exhausted base case unreachable.  Returns the final `statusIndex`
and the final `tryCount`. -/
def cycleGoA (slots : List (List Char)) : Nat → Nat → Nat → Nat × Nat
  | idx, t, 0 => ((idx + 1) % 5, t + 1)
  | idx, t, fuel + 1 =>
    if slotEmptyIdx slots ((idx + 1) % 5) && decide (t + 1 < 5) then
      cycleGoA slots ((idx + 1) % 5) (t + 1) fuel
    else ((idx + 1) % 5, t + 1)

/-- Status index reached by one qualifying short press, starting from
`statusIndex = idx` with `tryCount = 0`. -/
def nextStatusIndex (slots : List (List Char)) (idx : Nat) : Nat :=
  (cycleGoA slots idx 0 5).1

/-- Custom-slot configuration of the C5 example: slot 1 empty, slot 2 holds
LUNCH, slot 3 empty. -/
def exSlots : List (List Char) := [[], "LUNCH".toList, []]

/-- Invariant of the cycling loop: starting at probe count `t < 5` with the
remaining-probe budget `fuel = 5 - t`, the loop performs at most `5` probes
in total and stops either on a non-empty (or non-custom) index or because
the probe budget is exhausted. -/
theorem cycleGoA_bound : ∀ (fuel : Nat) (slots : List (List Char)) (idx t : Nat),
    t + fuel = 5 → t < 5 →
    (cycleGoA slots idx t fuel).2 ≤ 5 ∧
    (slotEmptyIdx slots (cycleGoA slots idx t fuel).1 = false ∨
      (cycleGoA slots idx t fuel).2 = 5) := by
  intro fuel
  induction fuel with
  | zero => intro slots idx t ht h5; omega
  | succ fuel ih =>
    intro slots idx t ht h5
    rw [cycleGoA]
    cases hse : slotEmptyIdx slots ((idx + 1) % 5) with
    | false => simp [hse]; omega
    | true =>
      by_cases hlt : t + 1 < 5
      · rw [if_pos (by simp [hse, hlt])]
        exact ih slots ((idx + 1) % 5) (t + 1) (by omega) (by omega)
      · rw [if_neg (by simp [hse, hlt])]
        constructor
        · simp; omega
        · right; simp; omega

/-- C5: a qualifying short press advances the status index through the
cyclic order BUSY(0), TALK(1), CUSTOM1(2), CUSTOM2(3), CUSTOM3(4), skipping
empty custom slots, with at most 5 probes (the loop is a total function, so
it always terminates).  With slots {1: empty, 2: LUNCH, 3: empty}, repeated
presses from BUSY visit TALK, then CUSTOM2, then BUSY again.  In general the
probe count is at most 5 and the index the press stops on is never an empty
custom slot unless all 5 probes were used up. -/
theorem claim5_cycle_skips_empty :
    (nextStatusIndex exSlots 0 = 1 ∧ nextStatusIndex exSlots 1 = 3 ∧
      nextStatusIndex exSlots 3 = 0) ∧
    (∀ (slots : List (List Char)) (idx : Nat), (cycleGoA slots idx 0 5).2 ≤ 5) ∧
    (∀ (slots : List (List Char)) (idx : Nat),
      slotEmptyIdx slots (nextStatusIndex slots idx) = false ∨
        (cycleGoA slots idx 0 5).2 = 5) :=
  ⟨by decide,
   fun slots idx => (cycleGoA_bound 5 slots idx 0 (by omega) (by omega)).1,
   fun slots idx => (cycleGoA_bound 5 slots idx 0 (by omega) (by omega)).2⟩

/-- Simulation state carried across calls of `stepGameOfLife`: the live
grid, the 8-slot fingerprint ring buffer `hashHistory` and its write index
`hashIdx`. -/
structure GolState where
  rows : Nat
  cols : Nat
  grid : Nat → Nat → Bool
  history : List Nat
  idx : Nat

/-- Fingerprint of a generation, from `stepGameOfLife`:
`hash ^= ((uint32_t)golGrid[y][x] << ((x + y) % 24))` folded over all cells.
Every summand is below `2^24`, so the 32-bit truncation of the C cast never
loses a bit and plain `Nat` xor is exact. -/
def golHash (g : Nat → Nat → Bool) (R C : Nat) : Nat :=
  (List.range R).foldl (fun h y =>
    (List.range C).foldl (fun h x => h ^^^ (b2n (g y x) <<< ((x + y) % 24))) h) 0

/-- Test for a fully dead generation, from the `allDead` scan of
`stepGameOfLife`. -/
def golAllDead (g : Nat → Nat → Bool) (R C : Nat) : Bool :=
  (List.range R).all fun y => (List.range C).all fun x => !g y x

/-- Row count set by `initGameOfLife`: `screenHeight / golCellSize`. -/
def golRowsInit : Nat := screenHeight / golCellSize

/-- Column count set by `initGameOfLife`: `screenWidth / golCellSize`. -/
def golColsInit : Nat := screenWidth / golCellSize

/-- Generation-and-termination check of `stepGameOfLife` after the render
pass: compute the next generation and its fingerprint, test for an all-dead
generation and for a fingerprint occurring anywhere in `hashHistory`, store
the fingerprint at `hashIdx` and advance the index, and on either trigger
run the reset path (`animateToBusyBee(); initGameOfLife();` then zero all 8
history slots and `hashIdx`).  `fresh` stands for the random grid produced
by `initGameOfLife`; the returned flag reports whether the reset path ran.
The code zeroes the whole history after having stored the fingerprint, so on
the reset path the state below is written verbatim. -/
def stepGolCheck (s : GolState) (fresh : Nat → Nat → Bool) : GolState × Bool :=
  let g2 := fun y x => golNextCell s.grid s.rows s.cols y x
  let h := golHash g2 s.rows s.cols
  let dead := golAllDead g2 s.rows s.cols
  let cyc := s.history.contains h
  if dead || cyc then
    (⟨golRowsInit, golColsInit, fresh, List.replicate 8 0, 0⟩, true)
  else
    (⟨s.rows, s.cols, g2, s.history.set s.idx h, (s.idx + 1) % 8⟩, false)

/-- C2: a simulation step triggers the reset path (morph-to-wordmark then
grid reinitialisation) exactly when the new generation is entirely dead or
its fingerprint matches one of the 8 recorded fingerprints; on a reset step
all 8 history slots are cleared to 0 (and the write index reset), and on any
other step no reset occurs and exactly the current fingerprint is written
into the ring buffer at the current index. -/
theorem claim2_reset_on_cycle (s : GolState) (fresh : Nat → Nat → Bool) :
    ((stepGolCheck s fresh).2 =
      (golAllDead (fun y x => golNextCell s.grid s.rows s.cols y x) s.rows s.cols ||
       s.history.contains
         (golHash (fun y x => golNextCell s.grid s.rows s.cols y x) s.rows s.cols))) ∧
    ((stepGolCheck s fresh).1.history =
      if (stepGolCheck s fresh).2 then List.replicate 8 0
      else s.history.set s.idx
        (golHash (fun y x => golNextCell s.grid s.rows s.cols y x) s.rows s.cols)) ∧
    ((stepGolCheck s fresh).1.idx =
      if (stepGolCheck s fresh).2 then 0 else (s.idx + 1) % 8) := by
  simp only [stepGolCheck]
  split <;> simp_all

/-- Fields written to flash by `reallySaveStatus` (`isBusy`, `customText`,
`customColor`, `showBattery`, `showCornerInfo`; the custom slots are saved by
the same call through `saveCustomStatuses`, subsumed here). -/
structure PersistFields where
  isBusy : Bool
  customText : List Char
  customColor : Nat
  showBattery : Bool
  showCornerInfo : Int
deriving DecidableEq

/-- Shared state seen by the persistence debouncer: the persisted fields and
the `needSaveStatus` dirty flag. -/
structure PersistState where
  fields : PersistFields
  needSave : Bool
deriving DecidableEq

/-- One dirty-flag-setting status mutation (the `serverSetCustom` pattern:
update the fields, then `needSaveStatus = true`). -/
def mutateStatus (f : PersistFields → PersistFields) (s : PersistState) : PersistState :=
  ⟨f s.fields, true⟩

/-- Apply a sequence of dirty-flag-setting mutations in order. -/
def applyMutations (s : PersistState) (ms : List (PersistFields → PersistFields)) :
    PersistState :=
  ms.foldl (fun st f => mutateStatus f st) s

/-- Once-per-second save check in `updateDisplay`:
`if (needSaveStatus) { reallySaveStatus(); }` — `reallySaveStatus` writes all
persisted fields to flash and ends with `needSaveStatus = false`.  Returns
the state after the tick and the flushed field snapshot, if any (`none`
models a tick with no flash write). -/
def saveTick (s : PersistState) : PersistState × Option PersistFields :=
  if s.needSave then (⟨s.fields, false⟩, some s.fields) else (s, none)

theorem applyMutations_fields (s : PersistState)
    (ms : List (PersistFields → PersistFields)) :
    (applyMutations s ms).fields = ms.foldl (fun fs f => f fs) s.fields := by
  induction ms generalizing s with
  | nil => rfl
  | cons m tl ih => simp only [applyMutations, List.foldl_cons] at *; exact ih _

theorem applyMutations_needSave (s : PersistState)
    (ms : List (PersistFields → PersistFields)) (h : ms ≠ []) :
    (applyMutations s ms).needSave = true := by
  induction ms generalizing s with
  | nil => exact absurd rfl h
  | cons m tl ih =>
    cases tl with
    | nil => rfl
    | cons m2 tl2 => exact ih _ (by simp)

/-- C9: applying `N ≥ 1` dirty-flag-setting status mutations within one tick
window of the persistence debouncer and then running the tick produces
exactly one durable write, whose contents are the fields left by the last
mutation (last write wins), and the tick clears the dirty flag.  The tick
emits at most one flush by construction, so at most one flush happens per
tick interval. -/
theorem claim9_debounced_persistence (s : PersistState)
    (ms : List (PersistFields → PersistFields)) (h : ms ≠ []) :
    (saveTick (applyMutations s ms)).2 =
      some (ms.foldl (fun fs f => f fs) s.fields) ∧
    (saveTick (applyMutations s ms)).1.needSave = false ∧
    (saveTick (applyMutations s ms)).1.fields =
      ms.foldl (fun fs f => f fs) s.fields := by
  have hd := applyMutations_needSave s ms h
  have hf := applyMutations_fields s ms
  simp [saveTick, hd, hf]

/-- Initial state used by the C9 witness. -/
def pState0 : PersistState :=
  ⟨⟨true, "BUSY".toList, TFT_RED, true, 2⟩, false⟩

/-- First mutation of the C9 witness: set the free text to HELLO. -/
def mutHello : PersistFields → PersistFields :=
  fun fs => { fs with customText := "HELLO".toList }

/-- Second mutation of the C9 witness: set the colour to green. -/
def mutGreen : PersistFields → PersistFields :=
  fun fs => { fs with customColor := TFT_GREEN }

/-- Witness for C9: two mutations inside one tick window coalesce into a
single flush carrying the final field values. -/
theorem claim9_debounced_persistence_w :
    (saveTick (applyMutations pState0 [mutHello, mutGreen])).2 =
      some ([mutHello, mutGreen].foldl (fun fs f => f fs) pState0.fields) ∧
    (saveTick (applyMutations pState0 [mutHello, mutGreen])).1.needSave = false ∧
    (saveTick (applyMutations pState0 [mutHello, mutGreen])).1.fields =
      [mutHello, mutGreen].foldl (fun fs f => f fs) pState0.fields :=
  claim9_debounced_persistence pState0 [mutHello, mutGreen] (by simp)

/-- Status triple shared between the web-server task and the display task:
`customText`, `customColor` and `isBusy`. -/
structure ShStatus where
  isBusy : Bool
  text : List Char
  color : Nat
deriving DecidableEq

/-- Text LETS TALK with the apostrophe written as `Char.ofNat 39`. -/
def talkText : List Char := "LET".toList ++ [Char.ofNat 39] ++ "S TALK".toList

/-- Atomic steps of the `/setStatus` handler for `status == "BUSY"`:
`isBusy = true; strcpy(customText, "BUSY"); customColor = TFT_RED;` — three
bare writes with no `portENTER_CRITICAL`/`portEXIT_CRITICAL` around them, so
each store is individually observable by the concurrently running display
task. -/
def setStatusBusyWrites : List (ShStatus → ShStatus) :=
  [fun s => { s with isBusy := true },
   fun s => { s with text := "BUSY".toList },
   fun s => { s with color := TFT_RED }]

/-- Atomic steps of `serverSetCustom` for an input passing both guards: the
text store and the colour store are wrapped in two separate
`portENTER_CRITICAL(&statusMux)` ... `portEXIT_CRITICAL(&statusMux)` blocks,
so each block is one observable step but the pair is not. -/
def serverSetCustomBlocks (txt : List Char) (col : Nat) : List (ShStatus → ShStatus) :=
  [fun s => { s with text := txt },
   fun s => { s with color := col }]

/-- States observable by the display task while a mutation runs on the
web-server task: the state before the mutation and the state after each of
its atomic steps. -/
def observableStates (writes : List (ShStatus → ShStatus)) (s0 : ShStatus) :
    List ShStatus :=
  writes.scanl (fun s f => f s) s0

/-- C3 (code bug): the BUSY/TALK branch of the `/setStatus` handler mutates
`customText` and `customColor` as bare writes outside any critical section,
and `serverSetCustom` puts the text and colour writes in two separate
critical sections; starting from status (LETS TALK, green) the mismatched
pair (BUSY, green) is observable mid-mutation, and starting from (BUSY, red)
the pair (HELLO, red) is observable while `serverSetCustom` sets (HELLO,
green) — contradicting the claimed text+colour atomicity. -/
theorem claim3_mutation_not_atomic :
    (⟨true, "BUSY".toList, TFT_GREEN⟩ : ShStatus) ∈
      observableStates setStatusBusyWrites ⟨false, talkText, TFT_GREEN⟩ ∧
    (⟨true, "HELLO".toList, TFT_RED⟩ : ShStatus) ∈
      observableStates (serverSetCustomBlocks "HELLO".toList TFT_GREEN)
        ⟨true, "BUSY".toList, TFT_RED⟩ := by decide

/-- Screen point with exact integer coordinates (target edge pixels and cell
centres both have integral coordinates, so the float arithmetic of
`animateToBusyBee` is exact on them). -/
abbrev Point := Int × Int

/-- Default point for out-of-range list reads. -/
def pt0 : Point := ((0 : Int), (0 : Int))

/-- Squared Euclidean distance from the greedy assignment loop of
`animateToBusyBee`: `dx * dx + dy * dy`. -/
def dist2 (a b : Point) : Int :=
  (a.1 - b.1) * (a.1 - b.1) + (a.2 - b.2) * (a.2 - b.2)

/-- Initial `minDist` sentinel of the assignment loop (`float minDist =
1e9`). -/
def BIG : Int := 1000000000

/-- Inner scan of the greedy assignment in `animateToBusyBee`: walk the
source cells with their used flags in parallel, carrying the running index
`j`, the current minimum distance `minD` (`minDist`) and the current best
index (`minIdx`, `none` for `-1`); a used cell is skipped, an unused cell
strictly closer than the current minimum becomes the new best. -/
def pickMinAux (t : Point) : List Point → List Bool → Nat → Int → Option Nat → Option Nat
  | c :: cs, u :: us, j, minD, best =>
    if !u && decide (dist2 t c < minD) then
      pickMinAux t cs us (j + 1) (dist2 t c) (some j)
    else
      pickMinAux t cs us (j + 1) minD best
  | _, _, _, _, best => best

/-- One round of the assignment loop: the closest remaining unassigned
source for target `t`. -/
def pickMin (t : Point) (cells : List Point) (used : List Bool) : Option Nat :=
  pickMinAux t cells used 0 BIG none

/-- Outer assignment loop of `animateToBusyBee`: for each target point in
scan order, pick the closest unused source (`pickMin`); on success record
the pairing and mark the source used (`used[minIdx] = true`), otherwise
record `none` (`assignment[i] = -1`). -/
def greedyAssign : List Point → List Point → List Bool → List (Option Nat)
  | [], _, _ => []
  | t :: ts, cells, used =>
    match pickMin t cells used with
    | some j => some j :: greedyAssign ts cells (used.set j true)
    | none => none :: greedyAssign ts cells used

/-- Full assignment with all source slots initially unused. -/
def assignAll (targets cells : List Point) : List (Option Nat) :=
  greedyAssign targets cells (List.replicate cells.length false)

/-- Cyclic source duplication of `animateToBusyBee`: `usedCells` starts as
`liveCells` and grows by `usedCells.push_back(liveCells[usedCells.size() %
liveCells.size()])` until it has `n` entries, so entry `i` is
`liveCells[i % liveCells.size()]`. -/
def cyclicExtend (cells : List Point) (n : Nat) : List Point :=
  (List.range n).map fun i => cells.getD (i % cells.length) pt0

/-- Count reconciliation of `animateToBusyBee` applied to the (already
shuffled) live-cell list: with at least `n` sources take the first `n`
(the `random_shuffle` is modelled by quantifying over every ordering of the
sources); with fewer, repeat them cyclically.  With zero sources and `n > 0`
the C code evaluates `usedCells.size() % liveCells.size()` with divisor 0 —
undefined behaviour, modelled as `none`. -/
def reconcile (cells : List Point) (n : Nat) : Option (List Point) :=
  if n ≤ cells.length then some (cells.take n)
  else if cells.isEmpty then none
  else some (cyclicExtend cells n)

/-- Live-cell centres collected by `animateToBusyBee`: for every live cell
`(y, x)` in scan order, the centre `(x * golCellSize + golCellSize / 2,
y * golCellSize + golCellSize / 2)`.  The per-cell colour is irrelevant to
the claims and omitted. -/
def liveCellsOf (g : Nat → Nat → Bool) (R C : Nat) : List Point :=
  (List.range R).foldr (fun y acc =>
    (((List.range C).filter (fun x => g y x)).map
      (fun x => (((x : Int) * golCellSize + golCellSize / 2),
                 ((y : Int) * golCellSize + golCellSize / 2)))) ++ acc) []

theorem pickMinAux_char (t : Point) :
    ∀ (cs : List Point) (us : List Bool) (j0 : Nat) (minD : Int) (best : Option Nat),
      (pickMinAux t cs us j0 minD best = best ∧
        ∀ k, k < cs.length → k < us.length → us.getD k true = false →
          minD ≤ dist2 t (cs.getD k pt0)) ∨
      (∃ k, k < cs.length ∧ k < us.length ∧
        pickMinAux t cs us j0 minD best = some (j0 + k) ∧
        us.getD k true = false ∧ dist2 t (cs.getD k pt0) < minD ∧
        ∀ k2, k2 < cs.length → k2 < us.length → us.getD k2 true = false →
          dist2 t (cs.getD k pt0) ≤ dist2 t (cs.getD k2 pt0)) := by
  intro cs
  induction cs with
  | nil =>
    intro us j0 minD best
    left
    refine ⟨rfl, ?_⟩
    intro k hk _ _
    simp at hk
  | cons c cs ih =>
    intro us j0 minD best
    cases us with
    | nil =>
      left
      refine ⟨rfl, ?_⟩
      intro k _ hk _
      simp at hk
    | cons u us =>
      by_cases hcond : (!u && decide (dist2 t c < minD)) = true
      · have hcond' := hcond
        simp only [Bool.and_eq_true, Bool.not_eq_true', decide_eq_true_eq] at hcond'
        obtain ⟨hu, hdc⟩ := hcond'
        have hstep : pickMinAux t (c :: cs) (u :: us) j0 minD best =
            pickMinAux t cs us (j0 + 1) (dist2 t c) (some j0) := by
          simp only [pickMinAux, if_pos hcond]
        rcases ih us (j0 + 1) (dist2 t c) (some j0) with ⟨heq, hall⟩ |
          ⟨k, hk1, hk2, heq, hku, hkd, hkmin⟩
        · right
          refine ⟨0, by simp, by simp, ?_, by simpa using hu, by simpa using hdc, ?_⟩
          · rw [hstep, heq, Nat.add_zero]
          · intro k2 hk2 hk2u hk2f
            cases k2 with
            | zero => simp
            | succ k2 =>
              simp only [List.getD_cons_succ] at hk2f ⊢
              exact hall k2 (by simpa using hk2) (by simpa using hk2u) hk2f
        · right
          refine ⟨k + 1, by simpa using hk1, by simpa using hk2, ?_,
            by simpa using hku, ?_, ?_⟩
          · rw [hstep, heq]
            congr 1
            omega
          · simp only [List.getD_cons_succ]
            exact lt_trans hkd hdc
          · intro k2 hk2l hk2u hk2f
            cases k2 with
            | zero =>
              simp only [List.getD_cons_succ, List.getD_cons_zero]
              exact le_of_lt hkd
            | succ k2 =>
              simp only [List.getD_cons_succ] at hk2f ⊢
              exact hkmin k2 (by simpa using hk2l) (by simpa using hk2u) hk2f
      · have hnc : u = true ∨ minD ≤ dist2 t c := by
          by_cases hu : u = true
          · exact Or.inl hu
          · have hu' : u = false := by simpa using hu
            subst hu'
            simp only [Bool.not_false, Bool.true_and, decide_eq_true_eq] at hcond
            exact Or.inr (by omega)
        have hstep : pickMinAux t (c :: cs) (u :: us) j0 minD best =
            pickMinAux t cs us (j0 + 1) minD best := by
          simp only [pickMinAux, if_neg hcond]
        rcases ih us (j0 + 1) minD best with ⟨heq, hall⟩ |
          ⟨k, hk1, hk2, heq, hku, hkd, hkmin⟩
        · left
          refine ⟨by rw [hstep, heq], ?_⟩
          intro k hk1 hk2 hkf
          cases k with
          | zero =>
            simp only [List.getD_cons_zero] at hkf ⊢
            rcases hnc with hu | hle
            · rw [hu] at hkf
              exact absurd hkf (by simp)
            · exact hle
          | succ k =>
            simp only [List.getD_cons_succ] at hkf ⊢
            exact hall k (by simpa using hk1) (by simpa using hk2) hkf
        · right
          refine ⟨k + 1, by simpa using hk1, by simpa using hk2, ?_,
            by simpa using hku, by simpa using hkd, ?_⟩
          · rw [hstep, heq]
            congr 1
            omega
          · intro k2 hk2l hk2u hk2f
            cases k2 with
            | zero =>
              simp only [List.getD_cons_zero] at hk2f
              simp only [List.getD_cons_succ, List.getD_cons_zero]
              rcases hnc with hu | hle
              · rw [hu] at hk2f
                exact absurd hk2f (by simp)
              · exact le_trans (le_of_lt hkd) hle
            | succ k2 =>
              simp only [List.getD_cons_succ] at hk2f ⊢
              exact hkmin k2 (by simpa using hk2l) (by simpa using hk2u) hk2f

theorem pickMin_spec (t : Point) (cells : List Point) (used : List Bool) :
    (pickMin t cells used = none ∧
      ∀ k, k < cells.length → k < used.length → used.getD k true = false →
        BIG ≤ dist2 t (cells.getD k pt0)) ∨
    (∃ j, j < cells.length ∧ j < used.length ∧ pickMin t cells used = some j ∧
      used.getD j true = false ∧ dist2 t (cells.getD j pt0) < BIG ∧
      ∀ k, k < cells.length → k < used.length → used.getD k true = false →
        dist2 t (cells.getD j pt0) ≤ dist2 t (cells.getD k pt0)) := by
  rcases pickMinAux_char t cells used 0 BIG none with ⟨heq, hall⟩ |
    ⟨k, hk1, hk2, heq, hku, hkd, hkmin⟩
  · exact Or.inl ⟨heq, hall⟩
  · exact Or.inr ⟨k, hk1, hk2, by simpa using heq, hku, hkd, hkmin⟩

theorem count_false_set : ∀ (us : List Bool) (j : Nat), j < us.length →
    us.getD j true = false →
    (us.set j true).count false + 1 = us.count false := by
  intro us
  induction us with
  | nil => intro j hj; simp at hj
  | cons u tl ih =>
    intro j hj hg
    cases j with
    | zero =>
      simp only [List.getD_cons_zero] at hg
      subst hg
      simp [List.count_cons]
    | succ j =>
      simp only [List.getD_cons_succ] at hg
      simp only [List.set_cons_succ, List.count_cons]
      have := ih j (by simpa using hj) hg
      omega

theorem unused_of_set : ∀ (us : List Bool) (j k : Nat),
    (us.set j true).getD k true = false → us.getD k true = false ∧ k ≠ j := by
  intro us
  induction us with
  | nil => intro j k h; simp at h
  | cons u tl ih =>
    intro j k h
    cases j with
    | zero =>
      cases k with
      | zero => simp at h
      | succ k =>
        simp only [List.set_cons_zero, List.getD_cons_succ] at h
        exact ⟨by simpa using h, by omega⟩
    | succ j =>
      cases k with
      | zero =>
        simp only [List.set_cons_succ, List.getD_cons_zero] at h
        exact ⟨by simpa using h, by omega⟩
      | succ k =>
        simp only [List.set_cons_succ, List.getD_cons_succ] at h
        obtain ⟨h1, h2⟩ := ih j k h
        exact ⟨h1, by omega⟩

theorem exists_unused : ∀ (us : List Bool), 0 < us.count false →
    ∃ k, k < us.length ∧ us.getD k true = false := by
  intro us
  induction us with
  | nil => intro h; simp at h
  | cons u tl ih =>
    intro h
    cases hu : u with
    | false => exact ⟨0, by simp, by simp [hu]⟩
    | true =>
      subst hu
      have : 0 < tl.count false := by simpa [List.count_cons] using h
      obtain ⟨k, hk1, hk2⟩ := ih this
      exact ⟨k + 1, by simpa using hk1, by simpa using hk2⟩

theorem getD_mem_of_lt (l : List Point) (k : Nat) (hk : k < l.length) :
    l.getD k pt0 ∈ l := by
  rw [List.getD_eq_getElem l pt0 hk]
  exact List.getElem_mem hk

/-- Invariant proof of the assignment loop: with as many unused source slots
as remaining targets and all relevant distances below the sentinel, every
target receives `some` source index, each received index names a slot that
was unused on entry, and no slot is received twice. -/
theorem greedyAssign_spec : ∀ (targets cells : List Point) (used : List Bool),
    used.length = cells.length →
    targets.length ≤ used.count false →
    (∀ p ∈ targets, ∀ c ∈ cells, dist2 p c < BIG) →
    (greedyAssign targets cells used).length = targets.length ∧
    (∀ a ∈ greedyAssign targets cells used, ∃ j, a = some j ∧ j < cells.length ∧
      used.getD j true = false) ∧
    ((greedyAssign targets cells used).filterMap id).Nodup := by
  intro targets
  induction targets with
  | nil => intro cells used _ _ _; simp [greedyAssign]
  | cons tp tl ih =>
    intro cells used hlen hcount hd
    have h1 : 0 < used.count false := by
      have : tl.length + 1 ≤ used.count false := by simpa using hcount
      omega
    obtain ⟨k0, hk0len, hk0un⟩ := exists_unused used h1
    rcases pickMin_spec tp cells used with ⟨_, hall⟩ |
      ⟨j, hj1, hj2, heq, hju, _, _⟩
    · exfalso
      have hk0c : k0 < cells.length := hlen ▸ hk0len
      have hbig := hall k0 hk0c hk0len hk0un
      have hsmall := hd tp (by simp) (cells.getD k0 pt0) (getD_mem_of_lt cells k0 hk0c)
      omega
    · have hga : greedyAssign (tp :: tl) cells used =
          some j :: greedyAssign tl cells (used.set j true) := by
        simp only [greedyAssign, heq]
      have hset_len : (used.set j true).length = cells.length := by
        simpa using hlen
      have hset_count : tl.length ≤ (used.set j true).count false := by
        have hdec := count_false_set used j hj2 hju
        have : tl.length + 1 ≤ used.count false := by simpa using hcount
        omega
      have hd2 : ∀ p ∈ tl, ∀ c ∈ cells, dist2 p c < BIG :=
        fun p hp => hd p (List.mem_cons_of_mem _ hp)
      obtain ⟨ihl, ihmem, ihnd⟩ := ih cells (used.set j true) hset_len hset_count hd2
      rw [hga]
      refine ⟨by simpa using ihl, ?_, ?_⟩
      · intro a ha
        rcases List.mem_cons.1 ha with rfl | ha
        · exact ⟨j, rfl, hj1, hju⟩
        · obtain ⟨j2, rfl, hj2lt, hj2set⟩ := ihmem _ ha
          exact ⟨j2, rfl, hj2lt, (unused_of_set used j j2 hj2set).1⟩
      · simp only [List.filterMap_cons, id]
        refine List.Nodup.cons ?_ ihnd
        intro hmem
        obtain ⟨a, ha, hfa⟩ := List.mem_filterMap.1 hmem
        obtain ⟨j2, rfl, _, hj2set⟩ := ihmem _ ha
        simp only [id] at hfa
        have hj2 : j2 = j := by simpa using hfa
        exact (unused_of_set used j j2 hj2set).2 hj2

theorem reconcile_some_len (cells : List Point) (n : Nat) (hne : cells ≠ []) :
    ∃ r, reconcile cells n = some r ∧ r.length = n := by
  by_cases h : n ≤ cells.length
  · exact ⟨cells.take n, by simp [reconcile, h], by simp [List.length_take]; omega⟩
  · refine ⟨cyclicExtend cells n, ?_, by simp [cyclicExtend]⟩
    have : cells.isEmpty = false := by
      cases cells with
      | nil => exact absurd rfl hne
      | cons c tl => rfl
    simp [reconcile, h, this]

theorem reconcile_mem (cells r : List Point) (n : Nat)
    (h : reconcile cells n = some r) : ∀ c ∈ r, c ∈ cells := by
  intro c hc
  by_cases hle : n ≤ cells.length
  · simp only [reconcile, if_pos hle, Option.some_inj] at h
    exact List.take_subset n cells (h ▸ hc)
  · by_cases hemp : cells.isEmpty = true
    · simp [reconcile, hle, hemp] at h
    · have hemp' : cells.isEmpty = false := by simpa using hemp
      simp only [reconcile] at h
      rw [if_neg hle, if_neg (by simp [hemp'])] at h
      injection h with h
      subst h
      simp only [cyclicExtend, List.mem_map] at hc
      obtain ⟨i, _, rfl⟩ := hc
      have hpos : 0 < cells.length := by
        cases cells with
        | nil => simp at hemp'
        | cons a tl => simp
      exact getD_mem_of_lt cells (i % cells.length) (Nat.mod_lt i hpos)

/-- Counterexample for C8: the empty source list.  The claim quantifies over
every set of live source cells of mismatched size, but with zero live
sources and one target the cyclic-repetition branch of the C code evaluates
`usedCells.size() % liveCells.size()` with divisor 0 (undefined behaviour,
modelled as `none`), so no reconciled source multiset of cardinality 1 is
produced. -/
theorem claim8_cx : reconcile ([] : List Point) 1 = none := rfl

/-- C8 (amended): for every non-empty set of target edge points and every
NON-EMPTY list of live source cells of mismatched size (all pairwise squared
distances below the `1e9` sentinel, as holds for any on-screen points), the
reconciliation step (subset when sources ≥ targets — the random shuffle is
modelled by quantifying over every source ordering — cyclic repetition when
sources < targets) yields a source list whose length equals the target
count; the greedy assignment then gives every target in scan order exactly
one source slot, no slot twice, and each `pickMin` choice is an unused slot
of minimal squared Euclidean distance among the slots unused at that step. -/
theorem claim8_reconcile_assignment (cells targets : List Point)
    (hne : cells ≠ [])
    (hd : ∀ p ∈ targets, ∀ c ∈ cells, dist2 p c < BIG) :
    ∃ r, reconcile cells targets.length = some r ∧ r.length = targets.length ∧
      (assignAll targets r).length = targets.length ∧
      (∀ a ∈ assignAll targets r, ∃ j, a = some j ∧ j < r.length) ∧
      ((assignAll targets r).filterMap id).Nodup ∧
      (∀ (tp : Point) (used : List Bool) (j : Nat), pickMin tp r used = some j →
        j < r.length ∧ used.getD j true = false ∧
        ∀ k, k < r.length → k < used.length → used.getD k true = false →
          dist2 tp (r.getD j pt0) ≤ dist2 tp (r.getD k pt0)) := by
  obtain ⟨r, hr, hlen⟩ := reconcile_some_len cells targets.length hne
  have hmem := reconcile_mem cells r targets.length hr
  have hd2 : ∀ p ∈ targets, ∀ c ∈ r, dist2 p c < BIG :=
    fun p hp c hc => hd p hp c (hmem c hc)
  have hrepl_len : (List.replicate r.length false).length = r.length := by simp
  have hrepl_count : targets.length ≤ (List.replicate r.length false).count false := by
    simp [hlen]
  obtain ⟨hL, hMem, hND⟩ := greedyAssign_spec targets r _ hrepl_len hrepl_count hd2
  refine ⟨r, hr, hlen, ?_, ?_, ?_, ?_⟩
  · simpa [assignAll] using hL
  · intro a ha
    obtain ⟨j, rfl, hjl, _⟩ := hMem a (by simpa [assignAll] using ha)
    exact ⟨j, rfl, hjl⟩
  · simpa [assignAll] using hND
  · intro tp used j hpm
    rcases pickMin_spec tp r used with ⟨hnone, _⟩ |
      ⟨j2, hj1, hj2, heq, hju, _, hjmin⟩
    · rw [hpm] at hnone
      exact absurd hnone (by simp)
    · rw [hpm] at heq
      have hjj : j2 = j := by
        injection heq with h2
        exact h2.symm
      subst hjj
      exact ⟨hj1, hju, hjmin⟩

/-- Source cells of the C8 witness: a single live cell centred at (3, 3). -/
def wCells : List Point := [((3 : Int), (3 : Int))]

/-- Target points of the C8 witness: two edge points, so the single source
must be duplicated cyclically. -/
def wTargets : List Point := [((0 : Int), (0 : Int)), ((6 : Int), (6 : Int))]

/-- Witness for C8: one live source versus two targets — the source is
repeated to length 2 and both targets receive distinct source slots. -/
theorem claim8_reconcile_assignment_w :
    ∃ r, reconcile wCells wTargets.length = some r ∧ r.length = wTargets.length ∧
      (assignAll wTargets r).length = wTargets.length ∧
      (∀ a ∈ assignAll wTargets r, ∃ j, a = some j ∧ j < r.length) ∧
      ((assignAll wTargets r).filterMap id).Nodup ∧
      (∀ (tp : Point) (used : List Bool) (j : Nat), pickMin tp r used = some j →
        j < r.length ∧ used.getD j true = false ∧
        ∀ k, k < r.length → k < used.length → used.getD k true = false →
          dist2 tp (r.getD j pt0) ≤ dist2 tp (r.getD k pt0)) :=
  claim8_reconcile_assignment wCells wTargets (by decide) (by decide)

/-- Grid of the C10 failing input: a single live cell at (1, 1) on the
3 × 3 torus; every cell of the next generation is dead. -/
def g1 : Nat → Nat → Bool := fun y x => y == 1 && x == 1

/-- Simulation state holding `g1` with a fingerprint history that contains
no zero entry, so the reset below is triggered by the all-dead test alone. -/
def golS1 : GolState := ⟨3, 3, g1, List.replicate 8 7, 0⟩

/-- C10 (code bug): the all-dead reset path of `stepGameOfLife` invokes
`animateToBusyBee` on a grid with zero live cells.  From the single-live-cell
grid `g1` the step triggers the reset, the new generation is entirely dead,
so the collected source list is empty, and the cyclic source-duplication
step then evaluates `usedCells.size() % liveCells.size()` with divisor 0
(modelled as `none`) for any non-zero target count — the claim that the
morph is only ever entered with at least one live source cell is false. -/
theorem claim10_zero_divisor_reachable :
    (stepGolCheck golS1 g1).2 = true ∧
    golAllDead (fun y x => golNextCell g1 3 3 y x) 3 3 = true ∧
    liveCellsOf (fun y x => golNextCell g1 3 3 y x) 3 3 = [] ∧
    reconcile (liveCellsOf (fun y x => golNextCell g1 3 3 y x) 3 3) 1 = none := by
  refine ⟨?_, ?_, ?_, ?_⟩ <;> decide

end BusyTag
